import Mathlib

/-!
Verification development for the tycho-vm core: a shallow embedding of
`vm/src/state.rs` (the VM step loop, commit discipline and exception
throwing), `vm/src/util.rs` (arbitrary-precision integer serialization),
`executor/src/phase/action.rs` (the action-phase executor) and
`src/instr/messageops.rs` (action installation into `c5`).

Machine integers are modelled as `Nat`/`Int` with explicit bounds where
overflow matters.  Cells are modelled as an inductive tree carrying the
metadata the cell library exposes (`level`, `repr_depth`); continuations,
the opcode dispatcher and the gas consumer internals live outside the
translated sources and are treated as opaque parameters.
-/

namespace TychoVm

/-! ### Cells

An immutable cell: descriptor exotic flag, payload bits, child references,
plus the `level()` / `repr_depth()` metadata computed by the external cell
library (`everscale_types`). -/

inductive Cell where
  | mk (exotic : Bool) (data : List Bool) (refs : List Cell) (level : Nat) (reprDepth : Nat)

def Cell.exotic : Cell → Bool
  | .mk e _ _ _ _ => e

def Cell.data : Cell → List Bool
  | .mk _ d _ _ _ => d

def Cell.refs : Cell → List Cell
  | .mk _ _ r _ _ => r

def Cell.level : Cell → Nat
  | .mk _ _ _ l _ => l

def Cell.reprDepth : Cell → Nat
  | .mk _ _ _ _ d => d

/-- Finalizing an ordinary cell through the cell library: level is the
maximum of the children's levels, representation depth is one more than the
deepest child (0 for a leaf). -/
def Cell.ordinary (data : List Bool) (refs : List Cell) : Cell :=
  .mk false data refs
    (refs.foldr (fun c acc => max c.level acc) 0)
    (if refs.isEmpty then 0 else refs.foldr (fun c acc => max c.reprDepth acc) 0 + 1)

/-! ### Stack values

Trimmed to the variants the verified claims observe.  `int 0` is
`Stack::make_zero()`. -/

inductive StackValue where
  | int (i : Int)
  | cell (c : Cell)
  | null
  | nan

/-! ### VM state (`vm/src/state.rs`)

The VM state is polymorphic over the continuation type `κ`: continuations
(`vm/src/cont.rs`) are not part of the translated sources, and the step
loop only stores and forwards them. -/

/-- Control registers.  `c0..c3` are continuation slots, `d0`/`d1` are the
data registers `c4` (persistent data) and `c5` (action list), `c7` is the
context tuple. -/
structure CRegs (κ : Type) where
  c0 : Option κ
  c1 : Option κ
  c2 : Option κ
  c3 : Option κ
  d0 : Option Cell
  d1 : Option Cell
  c7 : List StackValue

/-- The observable part of the gas consumer (`vm/src/gas.rs` is not among
the translated sources): `consumed()` is the single metric the step loop
reports, `remaining` drives `try_consume`. -/
structure GasSt where
  consumed : Int
  remaining : Int

/-- `VmState` fields touched by `run`/`try_commit`/`throw_*`.  The code
slice is a pair (data bits, refs) as in `OwnedCellSlice`;
`throw_on_code_access` is set when the state was built without code. -/
structure VmSt (κ : Type) where
  code : List Bool × List Cell
  stack : List StackValue
  cr : CRegs κ
  commited : Option (Cell × Cell)
  steps : Nat
  gas : GasSt
  throw_on_code_access : Bool

/-- `Default::default()` for the code slice: the empty slice. -/
def emptyCode : List Bool × List Cell := ([], [])

/-- VM errors as seen by `run()`: an out-of-gas failure or any other error,
which `e.as_exception()` maps to a `VmException` discriminant.
`error.rs` is not among the translated sources; the exception codes are
modelled from the spec's table (2 StackUnderflow, ..., 8 CellOverflow,
13 OutOfGas). -/
inductive VmError where
  | outOfGas
  | other (excCode : Nat)

def VmError.isOutOfGas : VmError → Bool
  | .outOfGas => true
  | .other _ => false

/-- `e.as_exception() as i32`. Modelled from the spec: out-of-gas maps to
the OutOfGas exception (13); any other error keeps its exception code. -/
def VmError.asException : VmError → Nat
  | .outOfGas => 13
  | .other c => c

/-- `VmException::as_exit_code()`. Modelled from the spec: fatal exit codes
are returned as the positive, non-negatable exception code ("No negation
for unhandled exceptions (to make their faking impossible)"). -/
def exceptionAsExitCode (excCode : Nat) : Int := (excCode : Int)

/-- `VmException::OutOfGas as u8 as i32`. -/
def outOfGasExitCode : Int := 13

/-- `VmException::CellOverflow.as_exit_code()`. -/
def cellOverflowExitCode : Int := exceptionAsExitCode 8

/-- The opaque collaborators of the run loop: one `step()` of the dispatch
table, the `jump` trampoline used by `throw_exception`, and
`try_consume_exception_gas` (acting on the gas consumer only; `false`
signals the out-of-gas failure). -/
structure StepFns (κ : Type) where
  step : VmSt κ → VmSt κ × Except VmError Int
  jump : VmSt κ → κ → VmSt κ × Except VmError Int
  excGas : GasSt → GasSt × Bool

/-- `VmState::MAX_DATA_DEPTH`. -/
def MAX_DATA_DEPTH : Nat := 512

/-- `VmState::try_commit`: snapshot `(c4, c5)` into `commited_state`
only when both registers hold cells of level 0 and representation depth at
most `MAX_DATA_DEPTH`. -/
def try_commit {κ : Type} (s : VmSt κ) : VmSt κ × Bool :=
  match s.cr.d0, s.cr.d1 with
  | some c4, some c5 =>
    if c4.level = 0 && c5.level = 0 &&
        c4.reprDepth ≤ MAX_DATA_DEPTH && c5.reprDepth ≤ MAX_DATA_DEPTH then
      ({ s with commited := some (c4, c5) }, true)
    else (s, false)
  | _, _ => (s, false)

/-- `VmState::throw_out_of_gas`: the stack becomes the single integer
`gas.consumed()`; the positive OutOfGas code is returned. -/
def throw_out_of_gas {κ : Type} (s : VmSt κ) : VmSt κ × Int :=
  ({ s with stack := [.int s.gas.consumed] }, outOfGasExitCode)

/-- `VmState::throw_exception_with_arg`: replace the stack with
`[arg, n]`, clear the code slice, charge the exception gas price, then
jump to the continuation in `c2` (missing `c2` raises InvalidOpcode). -/
def throw_exception_with_arg {κ : Type} (fns : StepFns κ) (s : VmSt κ)
    (n : Int) (arg : StackValue) : VmSt κ × Except VmError Int :=
  let s := { s with stack := [arg, .int n], code := emptyCode }
  match fns.excGas s.gas with
  | (g, false) => ({ s with gas := g }, .error .outOfGas)
  | (g, true) =>
    let s := { s with gas := g }
    match s.cr.c2 with
    | none => (s, .error (.other 6))
    | some c2 => fns.jump s c2

/-- `VmState::throw_exception`: as `throw_exception_with_arg` with the
argument defaulted to `Stack::make_zero()`. -/
def throw_exception {κ : Type} (fns : StepFns κ) (s : VmSt κ) (n : Int) :
    VmSt κ × Except VmError Int :=
  throw_exception_with_arg fns s n (.int 0)

/-- One pass of the `while res == 0` body in `VmState::run`: produce the
next `res` (`Sum.inl`), or perform the early `return` taken on a second
exception during handling (`Sum.inr`). -/
def runLoopBody {κ : Type} (fns : StepFns κ) (s : VmSt κ) :
    (VmSt κ × Int) ⊕ (VmSt κ × Int) :=
  match fns.step s with
  | (s1, .ok res) => .inl (s1, res)
  | (s1, .error e) =>
    if e.isOutOfGas then
      .inl (throw_out_of_gas { s1 with steps := s1.steps + 1 })
    else
      let exc := e.asException
      match throw_exception fns { s1 with steps := s1.steps + 1 } (exc : Int) with
      | (s2, .ok res) => .inl (s2, res)
      | (s2, .error e2) =>
        if e2.isOutOfGas then
          .inl (throw_out_of_gas { s2 with steps := s2.steps + 1 })
        else
          .inr (s2, exceptionAsExitCode exc)

/-- The tail of `VmState::run` after the loop: on `res | 1 == -1` try the
automatic commit; when it fails, reset the stack to a single zero and exit
with the CellOverflow code. -/
def runFinish {κ : Type} (s : VmSt κ) (res : Int) : VmSt κ × Int :=
  if Int.lor res 1 = -1 then
    match try_commit s with
    | (s', true) => (s', res)
    | (s', false) => ({ s' with stack := [.int 0] }, cellOverflowExitCode)
  else (s, res)

/-- `VmState::run`'s `while res == 0` loop followed by the commit epilogue.
`fuel` bounds the number of iterations; `none` means the loop was still
running after `fuel` steps. -/
def runLoop {κ : Type} (fns : StepFns κ) : Nat → VmSt κ → Option (VmSt κ × Int)
  | 0, _ => none
  | fuel + 1, s =>
    match runLoopBody fns s with
    | .inl (s', res) => if res = 0 then runLoop fns fuel s' else some (runFinish s' res)
    | .inr (s', res) => some (s', res)

/-- `VmState::run`: without code, return `VmException::Fatal as u8` at
once (a positive, non-negatable code — its numeric value lives in the
untranslated `error.rs` and is the parameter `fatalCode`); otherwise run
the loop and the commit epilogue. -/
def run {κ : Type} (fatalCode : Nat) (fns : StepFns κ) (fuel : Nat)
    (s : VmSt κ) : Option (VmSt κ × Int) :=
  if s.throw_on_code_access then some (s, (fatalCode : Int))
  else runLoop fns fuel s

/-! ### Properties of the commit discipline -/

/-- The commit-safety invariant: a committed pair has both cells at level 0
and representation depth at most 512. -/
def CommitedGood (o : Option (Cell × Cell)) : Prop :=
  ∃ c4 c5, o = some (c4, c5) ∧ c4.level = 0 ∧ c5.level = 0 ∧
    c4.reprDepth ≤ 512 ∧ c5.reprDepth ≤ 512

theorem try_commit_true_iff {κ : Type} (s : VmSt κ) :
    (try_commit s).2 = true ↔
      ∃ c4 c5, s.cr.d0 = some c4 ∧ s.cr.d1 = some c5 ∧
        c4.level = 0 ∧ c5.level = 0 ∧ c4.reprDepth ≤ 512 ∧ c5.reprDepth ≤ 512 := by
  unfold try_commit
  constructor
  · intro h
    match hd0 : s.cr.d0, hd1 : s.cr.d1 with
    | some c4, some c5 =>
      simp only [hd0, hd1] at h
      split at h
      · rename_i hcond
        simp only [Bool.and_eq_true, decide_eq_true_eq] at hcond
        exact ⟨c4, c5, rfl, rfl, hcond.1.1.1, hcond.1.1.2, hcond.1.2, hcond.2⟩
      · simp at h
    | some _, none => simp [hd0, hd1] at h
    | none, _ => simp [hd0] at h
  · rintro ⟨c4, c5, hd0, hd1, h1, h2, h3, h4⟩
    simp [hd0, hd1, h1, h2, MAX_DATA_DEPTH, h3, h4]

theorem try_commit_commited {κ : Type} (s : VmSt κ) :
    ((try_commit s).2 = true → CommitedGood (try_commit s).1.commited) ∧
    ((try_commit s).2 = false → (try_commit s).1 = s) := by
  unfold try_commit CommitedGood
  match hd0 : s.cr.d0, hd1 : s.cr.d1 with
  | some c4, some c5 =>
    simp only [hd0, hd1]
    split
    · rename_i hcond
      simp only [Bool.and_eq_true, decide_eq_true_eq] at hcond
      refine ⟨fun _ => ⟨c4, c5, rfl, hcond.1.1.1, hcond.1.1.2, hcond.1.2, hcond.2⟩, by simp⟩
    · exact ⟨by simp, fun _ => rfl⟩
  | some _, none => exact ⟨by simp, fun _ => rfl⟩
  | none, _ => exact ⟨by simp, fun _ => rfl⟩

/-- `(-1) | 1 = -1` and `(-2) | 1 = -1`: the two exit codes that trigger
the automatic commit. -/
theorem lor_one_of_commit_codes : Int.lor (-1) 1 = -1 ∧ Int.lor (-2) 1 = -1 := by
  constructor
  · show Int.negSucc (Nat.ldiff 0 1) = Int.negSucc 0
    congr 1
    exact Nat.eq_of_testBit_eq fun i => by simp [Nat.testBit_ldiff]
  · show Int.negSucc (Nat.ldiff 1 1) = Int.negSucc 0
    congr 1
    exact Nat.eq_of_testBit_eq fun i => by simp [Nat.testBit_ldiff]

theorem runFinish_commit_attempt {κ : Type} (s : VmSt κ) (res : Int)
    (htrig : Int.lor res 1 = -1) :
    ((try_commit s).2 = true →
      runFinish s res = ((try_commit s).1, res) ∧
        CommitedGood (runFinish s res).1.commited) ∧
    ((try_commit s).2 = false →
      runFinish s res = ({ s with stack := [.int 0] }, cellOverflowExitCode)) := by
  constructor
  · intro htrue
    have h := (try_commit_commited s).1 htrue
    match hc : try_commit s with
    | (s', true) =>
      rw [hc] at h
      have heq : runFinish s res = (s', res) := by simp [runFinish, htrig, hc]
      constructor
      · simp [heq, hc]
      · rw [heq]
        exact h
    | (s', false) => rw [hc] at htrue; simp at htrue
  · intro hfalse
    have h := (try_commit_commited s).2 hfalse
    match hc : try_commit s with
    | (s', true) => rw [hc] at hfalse; simp at hfalse
    | (s', false) =>
      rw [hc] at h
      simp only at h
      subst h
      simp [runFinish, htrig, hc]

theorem runFinish_no_commit {κ : Type} (s : VmSt κ) (res : Int)
    (htrig : ¬ Int.lor res 1 = -1) : runFinish s res = (s, res) := by
  unfold runFinish
  simp [htrig]

/-- The exit code produced by `runFinish` is in `{-1, -2}` only when the
commit succeeded, in which case the committed state is good. -/
theorem runFinish_exit_characterization {κ : Type} (s : VmSt κ) (res : Int) :
    CommitedGood (runFinish s res).1.commited ∨
      ((runFinish s res).2 ≠ -1 ∧ (runFinish s res).2 ≠ -2) := by
  by_cases htrig : Int.lor res 1 = -1
  · rcases h2 : (try_commit s).2 with _ | _
    · right
      rw [(runFinish_commit_attempt s res htrig).2 h2]
      simp [cellOverflowExitCode, exceptionAsExitCode]
    · left
      exact ((runFinish_commit_attempt s res htrig).1 h2).2
  · right
    rw [runFinish_no_commit s res htrig]
    constructor
    · rintro rfl; exact htrig lor_one_of_commit_codes.1
    · rintro rfl; exact htrig lor_one_of_commit_codes.2

theorem runLoop_exit_characterization {κ : Type} (fns : StepFns κ) (fuel : Nat)
    (s sF : VmSt κ) (res : Int) (h : runLoop fns fuel s = some (sF, res)) :
    CommitedGood sF.commited ∨ (res ≠ -1 ∧ res ≠ -2) := by
  induction fuel generalizing s with
  | zero => simp [runLoop] at h
  | succ fuel ih =>
    unfold runLoop at h
    match hbody : runLoopBody fns s with
    | .inl (s', res') =>
      rw [hbody] at h
      dsimp only at h
      by_cases hz : res' = 0
      · rw [if_pos hz] at h
        exact ih s' h
      · rw [if_neg hz] at h
        have hfin : (runFinish s' res').1 = sF ∧ (runFinish s' res').2 = res := by
          have := Option.some.inj h
          exact ⟨congrArg Prod.fst this, congrArg Prod.snd this⟩
        have hchar := runFinish_exit_characterization s' res'
        rw [hfin.1, hfin.2] at hchar
        exact hchar
    | .inr (s', res') =>
      rw [hbody] at h
      dsimp only at h
      have hinj := Option.some.inj h
      right
      have hres : res = res' := (congrArg Prod.snd hinj).symm
      -- the early return carries `exception.as_exit_code()`, a nonnegative code
      have hnonneg : ∃ c : Nat, res' = (c : Int) := by
        unfold runLoopBody at hbody
        match hs : fns.step s with
        | (s1, .ok r) => rw [hs] at hbody; simp at hbody
        | (s1, .error e) =>
          rw [hs] at hbody
          by_cases hg : e.isOutOfGas
          · simp [hg] at hbody
          · simp only [hg, Bool.false_eq_true, if_false] at hbody
            match ht : throw_exception fns { s1 with steps := s1.steps + 1 } (e.asException : Int) with
            | (s2, .ok r) => rw [ht] at hbody; simp at hbody
            | (s2, .error e2) =>
              rw [ht] at hbody
              by_cases hg2 : e2.isOutOfGas
              · simp [hg2] at hbody
              · simp only [hg2, Bool.false_eq_true, if_false, Sum.inr.injEq, Prod.mk.injEq] at hbody
                exact ⟨e.asException, hbody.2.symm⟩
      obtain ⟨c, hc⟩ := hnonneg
      subst hres
      rw [hc]
      omega

theorem run_exit_characterization {κ : Type} (fatalCode : Nat) (fns : StepFns κ)
    (fuel : Nat) (s sF : VmSt κ) (res : Int)
    (h : run fatalCode fns fuel s = some (sF, res)) :
    CommitedGood sF.commited ∨ (res ≠ -1 ∧ res ≠ -2) := by
  unfold run at h
  split at h
  · have hinj := Option.some.inj h
    have hres : res = (fatalCode : Int) := (congrArg Prod.snd hinj).symm
    right
    rw [hres]
    omega
  · exact runLoop_exit_characterization fns fuel s sF res h

/-- C1: When `run()` terminates the loop with an exit code satisfying
`res | 1 == -1` it attempts the automatic commit: `(c4, c5)` is snapshotted
into `commited_state` exactly when both cells have level 0 and
representation depth at most 512; if the attempt fails, `run()` returns the
(positive, non-negatable) CellOverflow exit code and the stack is reset to
a single zero.  Consequently, whenever `run()` returns, either
`commited_state` is `Some` with both cells at level 0 and depth ≤ 512, or
the exit code is not one of the success codes `-1`/`-2` (it is an
exception-style code). -/
theorem run_commit_discipline :
    (∀ (κ : Type) (s : VmSt κ), (try_commit s).2 = true ↔
      ∃ c4 c5, s.cr.d0 = some c4 ∧ s.cr.d1 = some c5 ∧
        c4.level = 0 ∧ c5.level = 0 ∧ c4.reprDepth ≤ 512 ∧ c5.reprDepth ≤ 512) ∧
    (∀ (κ : Type) (s : VmSt κ) (res : Int), Int.lor res 1 = -1 →
      ((try_commit s).2 = true →
        runFinish s res = ((try_commit s).1, res) ∧
          CommitedGood (runFinish s res).1.commited) ∧
      ((try_commit s).2 = false →
        runFinish s res = ({ s with stack := [.int 0] }, cellOverflowExitCode))) ∧
    (∀ (κ : Type) (fatalCode : Nat) (fns : StepFns κ) (fuel : Nat)
        (s sF : VmSt κ) (res : Int),
      run fatalCode fns fuel s = some (sF, res) →
      CommitedGood sF.commited ∨ (res ≠ -1 ∧ res ≠ -2)) :=
  ⟨fun _ s => try_commit_true_iff s,
   fun _ s res h => runFinish_commit_attempt s res h,
   fun _ fatalCode fns fuel s sF res h =>
     run_exit_characterization fatalCode fns fuel s sF res h⟩

/-! Concrete instances used to witness the run-loop theorems. -/

def sampleCell : Cell := Cell.ordinary [] []

def sampleRegs : CRegs Unit :=
  { c0 := none, c1 := none, c2 := some (), c3 := none,
    d0 := some sampleCell, d1 := some sampleCell, c7 := [] }

def sampleSt : VmSt Unit :=
  { code := emptyCode, stack := [], cr := sampleRegs, commited := none,
    steps := 0, gas := { consumed := 7, remaining := 0 },
    throw_on_code_access := false }

/-- A dispatcher whose step and jump both fail with a non-gas error. -/
def stepErr : StepFns Unit :=
  { step := fun s => (s, .error (.other 5)),
    jump := fun s _ => (s, .error (.other 7)),
    excGas := fun g => (g, true) }

/-- A dispatcher whose step fails with out-of-gas. -/
def stepOog : StepFns Unit :=
  { step := fun s => (s, .error .outOfGas),
    jump := fun s _ => (s, .ok 0),
    excGas := fun g => (g, true) }

theorem run_commit_discipline_witness :
    CommitedGood
        ({ sampleSt with stack := [.int 0, .int 5], steps := 1 } : VmSt Unit).commited ∨
      ((5 : Int) ≠ -1 ∧ (5 : Int) ≠ -2) :=
  run_commit_discipline.2.2 Unit 7 stepErr 1 sampleSt
    { sampleSt with stack := [.int 0, .int 5], steps := 1 } 5 rfl

/-- `Int.lor (ofNat m) 1` is nonnegative, hence never `-1`: positive exit
codes never trigger the automatic commit. -/
theorem lor_nonneg_one_ne_neg_one (m : Nat) : Int.lor (Int.ofNat m) 1 ≠ -1 := by
  show ¬ ((m ||| 1 : Nat) : Int) = -1
  omega

/-- C2: When a `step()` inside `run()` fails with out-of-gas, the loop
terminates at once through `throw_out_of_gas`: the returned exit code is
the positive (non-negated) OutOfGas code 13, and the final stack holds the
single integer `gas.consumed()`. -/
theorem run_out_of_gas_spec {κ : Type} (fns : StepFns κ) (fuel : Nat)
    (s s1 : VmSt κ) (e : VmError) (hstep : fns.step s = (s1, .error e))
    (hoog : e.isOutOfGas = true) :
    runLoop fns (fuel + 1) s =
      some ({ s1 with steps := s1.steps + 1, stack := [.int s1.gas.consumed] },
        outOfGasExitCode) ∧
    outOfGasExitCode = 13 := by
  refine ⟨?_, rfl⟩
  unfold runLoop runLoopBody
  rw [hstep]
  dsimp only
  rw [if_pos hoog]
  dsimp only [throw_out_of_gas]
  rw [if_neg (by exact (by decide : (outOfGasExitCode : Int) ≠ 0))]
  rw [runFinish_no_commit _ outOfGasExitCode (lor_nonneg_one_ne_neg_one 13)]

theorem run_out_of_gas_witness :
    runLoop stepOog 1 sampleSt =
      some ({ sampleSt with steps := 1, stack := [.int 7] }, outOfGasExitCode) ∧
    outOfGasExitCode = 13 :=
  run_out_of_gas_spec stepOog 0 sampleSt sampleSt .outOfGas rfl rfl

/-- C7: `throw_exception` / `throw_exception_with_arg` with code `n`
replace the stack with exactly `[arg, n]` (the argument defaulting to the
zero integer), clear the current code slice, consume the per-exception gas
charge, and jump to the continuation held in `c2`. -/
theorem throw_exception_spec {κ : Type} (fns : StepFns κ) (s : VmSt κ)
    (n : Int) (arg : StackValue) (k : κ) (g : GasSt)
    (hc2 : s.cr.c2 = some k) (hgas : fns.excGas s.gas = (g, true)) :
    throw_exception_with_arg fns s n arg =
      fns.jump { s with stack := [arg, .int n], code := emptyCode, gas := g } k ∧
    throw_exception fns s n =
      fns.jump { s with stack := [.int 0, .int n], code := emptyCode, gas := g } k := by
  constructor
  · unfold throw_exception_with_arg
    dsimp only
    rw [hgas]
    dsimp only
    rw [hc2]
  · unfold throw_exception throw_exception_with_arg
    dsimp only
    rw [hgas]
    dsimp only
    rw [hc2]

theorem throw_exception_spec_witness :
    throw_exception_with_arg stepErr sampleSt 9 .null =
      stepErr.jump { sampleSt with stack := [.null, .int 9] } () ∧
    throw_exception stepErr sampleSt 9 =
      stepErr.jump { sampleSt with stack := [.int 0, .int 9] } () :=
  throw_exception_spec stepErr sampleSt 9 .null () sampleSt.gas rfl rfl

/-! ### `jump_ext` / `adjust_jump_cont` (`vm/src/state.rs`)

The stack-adjustment logic is polymorphic over the stack value type `V`,
the control-register bank `γ` and the savelist type `σ`; `preclear` is the
savelist combinator from `vm/src/cont.rs` (outside the translated
sources).  Stacks are modelled with the TOP at the HEAD of the list, so
`Stack::split_top`/`drop_bottom(n)` become `List.take`; `move_from_stack`
(from the untranslated `vm/src/stack.rs`, modelled from the spec: "the top
`next_depth` elements of the current stack are moved onto cont's stack,
preserving the top") becomes `take n ++ cont_stack`.

The gas charges `self.gas.try_consume_stack_gas(..)` and
`self.gas.try_consume_stack_depth_gas(..)` (their internals live in the
untranslated `vm/src/gas.rs`) are opaque fallible parameters over a
gas-consumer state `γg`, in the style of the exception gas charge of
`throw_exception`: they return the next gas state and a success flag,
`false` being their out-of-gas failure, which `adjust_jump_cont`
propagates with `?`. -/

/-- The `ControlData` fields `adjust_jump_cont` inspects. -/
structure ContData (V σ : Type) where
  nargs : Option Nat
  stack : Option (List V)
  save : σ

/-- A continuation as seen by the jump machinery: ordinary continuations
carry control data, the rest do not. -/
structure JumpCont (V σ : Type) where
  data : Option (ContData V σ)

/-- The failures of `adjust_jump_cont`: the `StackUnderflow(n)` exceptions
of the argument checks, and the out-of-gas failure propagated from the
stack gas charges. -/
inductive JumpErr where
  | stackUnderflow (n : Nat)
  | outOfGas

/-- The opaque gas charges of `adjust_jump_cont`:
`try_consume_stack_gas` (charged for a freshly built stack) and
`try_consume_stack_depth_gas` (charged for a trimmed stack depth), each
returning the next gas state and `false` on out-of-gas. -/
structure JumpGas (V γg : Type) where
  stack_gas : γg → List V → γg × Bool
  stack_depth_gas : γg → Nat → γg × Bool

/-- The body shared by the three branches of `adjust_jump_cont` once the
argument checks passed, including their fallible gas charges. -/
def adjust_jump_cont_go {V γ γg σ : Type} (preclear : γ → σ → γ)
    (gas : JumpGas V γg) (g : γg) (stack : List V) (cr : γ)
    (cd : ContData V σ) (pass_args : Option Nat) :
    Except JumpErr (List V × γ × γg × JumpCont V σ) :=
  let current_depth := stack.length
  -- Prepare the current savelist to be overwritten by the continuation
  let cr := preclear cr cd.save
  -- Compute the next stack depth
  let next_depth :=
    match cd.nargs with
    | some n => n
    | none => pass_args.getD current_depth
  let cont' : JumpCont V σ := ⟨some { cd with stack := none }⟩
  match cd.stack with
  | some cont_stack =>
    if !cont_stack.isEmpty then
      -- Continuation has a non-empty stack: extend it from the current
      -- one, then charge `try_consume_stack_gas` for the new stack
      match gas.stack_gas g (stack.take next_depth ++ cont_stack) with
      | (g', true) => .ok (stack.take next_depth ++ cont_stack, cr, g', cont')
      | (_, false) => .error .outOfGas
    else if next_depth < current_depth then
      -- Ensure that the current stack has an exact number of items, then
      -- charge `try_consume_stack_depth_gas(next_depth)`
      match gas.stack_depth_gas g next_depth with
      | (g', true) => .ok (stack.take next_depth, cr, g', cont')
      | (_, false) => .error .outOfGas
    else .ok (stack, cr, g, cont')
  | none =>
    if next_depth < current_depth then
      match gas.stack_depth_gas g next_depth with
      | (g', true) => .ok (stack.take next_depth, cr, g', cont')
      | (_, false) => .error .outOfGas
    else .ok (stack, cr, g, cont')

/-- `VmState::adjust_jump_cont`, with its stack gas charges. -/
def adjust_jump_cont {V γ γg σ : Type} (preclear : γ → σ → γ)
    (gas : JumpGas V γg) (g : γg) (stack : List V) (cr : γ)
    (cont : JumpCont V σ) (pass_args : Option Nat) :
    Except JumpErr (List V × γ × γg × JumpCont V σ) :=
  match cont.data with
  | some cd =>
    let current_depth := stack.length
    if pass_args.getD 0 ≤ current_depth ∧ cd.nargs.getD 0 ≤ current_depth then
      match pass_args with
      | some p =>
        if cd.nargs.getD 0 ≤ p then
          adjust_jump_cont_go preclear gas g stack cr cd pass_args
        else .error (.stackUnderflow p)
      | none => adjust_jump_cont_go preclear gas g stack cr cd none
    else .error (.stackUnderflow (max (pass_args.getD 0) (cd.nargs.getD 0)))
  | none =>
    match pass_args with
    | some p =>
      -- `depth.checked_sub(pass_args)` fails on underflow
      if stack.length < p then .error (.stackUnderflow p)
      else if 0 < stack.length - p then
        -- depth_diff > 0: drop the bottom of the stack, then charge
        -- `try_consume_stack_depth_gas(pass_args)`
        match gas.stack_depth_gas g p with
        | (g', true) => .ok (stack.take p, cr, g', cont)
        | (_, false) => .error .outOfGas
      else .ok (stack, cr, g, cont)
    | none => .ok (stack, cr, g, cont)

/-- `VmState::jump_ext`: adjust the current stack, then proceed into the
continuation through the (untranslated) `do_jump_to` trampoline. -/
def jump_ext {V γ γg σ ρ : Type} (do_jump_to : List V → γ → γg → JumpCont V σ → ρ)
    (preclear : γ → σ → γ) (gas : JumpGas V γg) (g : γg) (stack : List V)
    (cr : γ) (cont : JumpCont V σ) (pass_args : Option Nat) : Except JumpErr ρ :=
  (adjust_jump_cont preclear gas g stack cr cont pass_args).map
    (fun r => do_jump_to r.1 r.2.1 r.2.2.1 r.2.2.2)

/-- The argument checks of `jump_ext`: every bound applies with a missing
`nargs`/`pass_args` defaulting to 0 (so a present `nargs` must always fit
under the current depth). -/
def jump_args_ok {V σ : Type} (cont : JumpCont V σ) (pass_args : Option Nat)
    (depth : Nat) : Prop :=
  match cont.data with
  | some cd =>
    cd.nargs.getD 0 ≤ depth ∧ pass_args.getD 0 ≤ depth ∧
      (∀ p, pass_args = some p → cd.nargs.getD 0 ≤ p)
  | none => ∀ p, pass_args = some p → p ≤ depth

/-- The `next_depth` of `adjust_jump_cont`:
`cont.nargs`, else `pass_args`, else the current depth. -/
def next_depth_of {V σ : Type} (cd : ContData V σ) (pass_args : Option Nat)
    (depth : Nat) : Nat :=
  match cd.nargs with
  | some n => n
  | none => pass_args.getD depth

theorem adjust_jump_cont_go_no_underflow {V γ γg σ : Type} (preclear : γ → σ → γ)
    (gas : JumpGas V γg) (g : γg) (stack : List V) (cr : γ)
    (cd : ContData V σ) (pass_args : Option Nat) (n : Nat) :
    adjust_jump_cont_go preclear gas g stack cr cd pass_args ≠
      .error (.stackUnderflow n) := by
  intro h
  unfold adjust_jump_cont_go at h
  dsimp only at h
  rcases hcs : cd.stack with _ | cont_stack
  · rw [hcs] at h
    dsimp only at h
    split at h
    · split at h
      · exact Except.noConfusion h
      · exact JumpErr.noConfusion (Except.error.inj h)
    · exact Except.noConfusion h
  · rw [hcs] at h
    dsimp only at h
    split at h
    · split at h
      · exact Except.noConfusion h
      · exact JumpErr.noConfusion (Except.error.inj h)
    · split at h
      · split at h
        · exact Except.noConfusion h
        · exact JumpErr.noConfusion (Except.error.inj h)
      · exact Except.noConfusion h

theorem adjust_jump_cont_underflow_iff {V γ γg σ : Type} (preclear : γ → σ → γ)
    (gas : JumpGas V γg) (g : γg) (stack : List V) (cr : γ)
    (cont : JumpCont V σ) (pass_args : Option Nat) :
    (∃ n, adjust_jump_cont preclear gas g stack cr cont pass_args =
        .error (.stackUnderflow n)) ↔
      ¬ jump_args_ok cont pass_args stack.length := by
  unfold adjust_jump_cont jump_args_ok
  match hd : cont.data with
  | some cd =>
    dsimp only
    by_cases h1 : pass_args.getD 0 ≤ stack.length ∧ cd.nargs.getD 0 ≤ stack.length
    · rw [if_pos h1]
      match pass_args with
      | some p =>
        dsimp only
        by_cases h2 : cd.nargs.getD 0 ≤ p
        · rw [if_pos h2]
          constructor
          · rintro ⟨n, hn⟩
            exact absurd hn
              (adjust_jump_cont_go_no_underflow preclear gas g stack cr cd (some p) n)
          · intro hno
            refine absurd ⟨h1.2, by simpa using h1.1, ?_⟩ hno
            rintro q hq
            cases hq
            exact h2
        · rw [if_neg h2]
          constructor
          · rintro - ⟨-, -, h⟩
            exact h2 (h p rfl)
          · intro _
            exact ⟨p, rfl⟩
      | none =>
        constructor
        · rintro ⟨n, hn⟩
          exact absurd hn
            (adjust_jump_cont_go_no_underflow preclear gas g stack cr cd none n)
        · intro hno
          exact absurd ⟨h1.2, by simp, by rintro q ⟨⟩⟩ hno
    · rw [if_neg h1]
      constructor
      · rintro - ⟨hn, hp, -⟩
        exact h1 ⟨by simpa using hp, hn⟩
      · intro _
        exact ⟨max (pass_args.getD 0) (cd.nargs.getD 0), rfl⟩
  | none =>
    match pass_args with
    | some p =>
      dsimp only
      by_cases h1 : stack.length < p
      · rw [if_pos h1]
        constructor
        · intro _ h
          exact absurd (h p rfl) (by omega)
        · intro _
          exact ⟨p, rfl⟩
      · rw [if_neg h1]
        by_cases h2 : 0 < stack.length - p
        · rw [if_pos h2]
          constructor
          · rintro ⟨n, hn⟩
            exfalso
            split at hn
            · exact Except.noConfusion hn
            · exact JumpErr.noConfusion (Except.error.inj hn)
          · intro hno
            refine absurd ?_ hno
            rintro q hq
            cases hq
            omega
        · rw [if_neg h2]
          constructor
          · rintro ⟨n, hn⟩
            exact Except.noConfusion hn
          · intro hno
            refine absurd ?_ hno
            rintro q hq
            cases hq
            omega
    | none =>
      constructor
      · rintro ⟨n, hn⟩
        exact Except.noConfusion hn
      · intro hno
        exact absurd (by rintro q ⟨⟩) hno

theorem adjust_jump_cont_go_stack {V γ γg σ : Type} (preclear : γ → σ → γ)
    (gas : JumpGas V γg) (g : γg) (stack : List V) (cr : γ)
    (cd : ContData V σ) (pass_args : Option Nat) :
    (∀ cont_stack res cr' g' cont', cd.stack = some cont_stack → cont_stack ≠ [] →
      adjust_jump_cont_go preclear gas g stack cr cd pass_args =
        .ok (res, cr', g', cont') →
      res = stack.take (next_depth_of cd pass_args stack.length) ++ cont_stack) ∧
    ((cd.stack = none ∨ cd.stack = some []) →
      next_depth_of cd pass_args stack.length ≤ stack.length →
      ∀ res cr' g' cont',
        adjust_jump_cont_go preclear gas g stack cr cd pass_args =
          .ok (res, cr', g', cont') →
        res = stack.take (next_depth_of cd pass_args stack.length)) := by
  constructor
  · intro cont_stack res cr' g' cont' hcs hne hok
    unfold adjust_jump_cont_go at hok
    rw [hcs] at hok
    dsimp only at hok
    rw [if_pos (by simpa using hne)] at hok
    split at hok
    · have h3 := Except.ok.inj hok
      exact (congrArg (fun t => Prod.fst t) h3 :
        stack.take (next_depth_of cd pass_args stack.length) ++ cont_stack = res).symm
    · exact Except.noConfusion hok
  · rintro hcs hle res cr' g' cont' hok
    unfold adjust_jump_cont_go at hok
    dsimp only [next_depth_of] at hle ⊢
    rcases hcs with h | h
    · rw [h] at hok
      dsimp only at hok
      by_cases hlt :
          (match cd.nargs with
            | some n => n
            | none => pass_args.getD stack.length) < stack.length
      · rw [if_pos hlt] at hok
        split at hok
        · have h3 := Except.ok.inj hok
          exact (congrArg (fun t => Prod.fst t) h3 :
            stack.take (next_depth_of cd pass_args stack.length) = res).symm
        · exact Except.noConfusion hok
      · rw [if_neg hlt] at hok
        have h3 := Except.ok.inj hok
        have hres : res = stack := (congrArg (fun t => Prod.fst t) h3).symm
        rw [hres, List.take_of_length_le (by omega)]
    · rw [h] at hok
      dsimp only at hok
      rw [if_neg (by simp)] at hok
      by_cases hlt :
          (match cd.nargs with
            | some n => n
            | none => pass_args.getD stack.length) < stack.length
      · rw [if_pos hlt] at hok
        split at hok
        · have h3 := Except.ok.inj hok
          exact (congrArg (fun t => Prod.fst t) h3 :
            stack.take (next_depth_of cd pass_args stack.length) = res).symm
        · exact Except.noConfusion hok
      · rw [if_neg hlt] at hok
        have h3 := Except.ok.inj hok
        have hres : res = stack := (congrArg (fun t => Prod.fst t) h3).symm
        rw [hres, List.take_of_length_le (by omega)]

/-- C6: `jump_ext(cont, pass_args)` fails with StackUnderflow exactly when
the argument checks `nargs ≤ depth`, `pass_args ≤ depth` and
`nargs ≤ pass_args` (each bound with a missing value defaulting) are
violated; past the checks the adjustment can still fail, but only with the
out-of-gas error of the `try_consume_stack_gas` /
`try_consume_stack_depth_gas` charges.  On success, with no non-empty
saved stack the current stack is trimmed to exactly
`next_depth = nargs ∨ pass_args ∨ depth` topmost elements, and with a
non-empty saved stack the top `next_depth` elements are moved onto the
continuation's stack, which becomes the current one. -/
theorem jump_ext_adjust_spec :
    (∀ (V γ γg σ ρ : Type) (dj : List V → γ → γg → JumpCont V σ → ρ)
        (preclear : γ → σ → γ) (gas : JumpGas V γg) (g : γg)
        (stack : List V) (cr : γ) (cont : JumpCont V σ) (pass_args : Option Nat),
      (∃ n, jump_ext dj preclear gas g stack cr cont pass_args =
          .error (.stackUnderflow n)) ↔
        ¬ jump_args_ok cont pass_args stack.length) ∧
    (∀ (V γ γg σ : Type) (preclear : γ → σ → γ) (gas : JumpGas V γg) (g : γg)
        (stack res : List V) (cr cr' : γ) (g' : γg) (cd : ContData V σ)
        (cont' : JumpCont V σ) (pass_args : Option Nat),
      adjust_jump_cont preclear gas g stack cr ⟨some cd⟩ pass_args =
          .ok (res, cr', g', cont') →
      ((cd.stack = none ∨ cd.stack = some []) →
        res = stack.take (next_depth_of cd pass_args stack.length) ∧
          res.length = next_depth_of cd pass_args stack.length) ∧
      (∀ cont_stack, cd.stack = some cont_stack → cont_stack ≠ [] →
        res = stack.take (next_depth_of cd pass_args stack.length) ++ cont_stack)) ∧
    (∀ (V γ γg σ : Type) (preclear : γ → σ → γ) (gas : JumpGas V γg) (g : γg)
        (stack res : List V) (cr cr' : γ) (g' : γg) (cont' : JumpCont V σ)
        (pass_args : Option Nat),
      adjust_jump_cont preclear gas g stack cr ⟨none⟩ pass_args =
          .ok (res, cr', g', cont') →
      res = stack.take (pass_args.getD stack.length)) := by
  refine ⟨?_, ?_, ?_⟩
  · intro V γ γg σ ρ dj preclear gas g stack cr cont pass_args
    rw [← adjust_jump_cont_underflow_iff preclear gas g stack cr cont pass_args]
    unfold jump_ext
    constructor
    · rintro ⟨n, hn⟩
      refine ⟨n, ?_⟩
      rcases hadj : adjust_jump_cont preclear gas g stack cr cont pass_args with e | r
      · rw [hadj] at hn
        dsimp only [Except.map] at hn
        rw [Except.error.inj hn]
      · rw [hadj] at hn
        dsimp only [Except.map] at hn
        exact Except.noConfusion hn
    · rintro ⟨n, hn⟩
      refine ⟨n, ?_⟩
      rw [hn]
      rfl
  · intro V γ γg σ preclear gas g stack res cr cr' g' cd cont' pass_args hok
    -- success means no StackUnderflow, which yields the argument bounds
    have hargs : jump_args_ok (⟨some cd⟩ : JumpCont V σ) pass_args stack.length := by
      by_contra hno
      rcases (adjust_jump_cont_underflow_iff preclear gas g stack cr
          ⟨some cd⟩ pass_args).2 hno with ⟨n, hn⟩
      rw [hok] at hn
      exact Except.noConfusion hn
    unfold jump_args_ok at hargs
    dsimp only at hargs
    have hnd : next_depth_of cd pass_args stack.length ≤ stack.length := by
      unfold next_depth_of
      match hn : cd.nargs with
      | some n => rw [hn] at hargs; simpa using hargs.1
      | none =>
        match pass_args with
        | some p => simpa using hargs.2.1
        | none => simp
    have hgo : adjust_jump_cont_go preclear gas g stack cr cd pass_args =
        .ok (res, cr', g', cont') := by
      unfold adjust_jump_cont at hok
      dsimp only at hok
      rw [if_pos ⟨hargs.2.1, hargs.1⟩] at hok
      match pass_args, hargs, hok with
      | some p, hargs, hok =>
        dsimp only at hok
        rw [if_pos (hargs.2.2 p rfl)] at hok
        exact hok
      | none, _, hok =>
        dsimp only at hok
        exact hok
    constructor
    · intro hcs
      have h := (adjust_jump_cont_go_stack preclear gas g stack cr cd pass_args).2
        hcs hnd res cr' g' cont' hgo
      refine ⟨h, ?_⟩
      rw [h, List.length_take]
      omega
    · intro cont_stack hcs hne
      exact (adjust_jump_cont_go_stack preclear gas g stack cr cd pass_args).1
        cont_stack res cr' g' cont' hcs hne hgo
  · intro V γ γg σ preclear gas g stack res cr cr' g' cont' pass_args hok
    unfold adjust_jump_cont at hok
    match pass_args, hok with
    | some p, hok =>
      dsimp only at hok ⊢
      simp only [Option.getD_some]
      by_cases h1 : stack.length < p
      · rw [if_pos h1] at hok; cases hok
      · rw [if_neg h1] at hok
        by_cases h2 : 0 < stack.length - p
        · rw [if_pos h2] at hok
          split at hok
          · have h3 := Except.ok.inj hok
            exact (congrArg (fun t => Prod.fst t) h3 : stack.take p = res).symm
          · exact Except.noConfusion hok
        · rw [if_neg h2] at hok
          have h3 := Except.ok.inj hok
          have hres : res = stack := (congrArg (fun t => Prod.fst t) h3).symm
          rw [hres, List.take_of_length_le (by omega)]
    | none, hok =>
      dsimp only at hok ⊢
      have h3 := Except.ok.inj hok
      have hres : res = stack := (congrArg (fun t => Prod.fst t) h3).symm
      rw [hres, List.take_of_length_le (by simp)]

def sampleContData : ContData Nat Unit := { nargs := some 2, stack := some [9], save := () }

/-- A gas consumer whose stack charges always succeed. -/
def sampleJumpGas : JumpGas Nat Unit where
  stack_gas := fun g _ => (g, true)
  stack_depth_gas := fun g _ => (g, true)

theorem jump_ext_adjust_spec_witness :
    ([1, 2, 9] : List Nat) =
      List.take (next_depth_of sampleContData none ([1, 2, 3] : List Nat).length)
        [1, 2, 3] ++ [9] :=
  (jump_ext_adjust_spec.2.1 Nat Unit Unit Unit (fun u _ => u) sampleJumpGas ()
      [1, 2, 3] [1, 2, 9] () () () sampleContData
      ⟨some { sampleContData with stack := none }⟩ none rfl).2
    [9] rfl (by decide)

/-! ### Integer serialization (`vm/src/util.rs`)

Builders and slices are modelled as big-endian bit lists; the external
cell primitives `store_uint` / `store_raw` / `load_uint` / `load_raw`
become operations on those lists. -/

/-- The big-endian `n`-bit representation of `v % 2^n`. -/
def natToBits : Nat → Nat → List Bool
  | 0, _ => []
  | n + 1, v => natToBits n (v / 2) ++ [v % 2 == 1]

/-- Read a big-endian bit string as a natural number. -/
def bitsToNat (l : List Bool) : Nat :=
  l.foldl (fun acc b => 2 * acc + (if b then 1 else 0)) 0

/-- `CellBuilder::MAX_BITS`. -/
def BUILDER_MAX_BITS : Nat := 1023

/-- `BigInt::bits()`: the bit length of the magnitude (0 for 0). -/
def bigintBits (n : Nat) : Nat := if n = 0 then 0 else n.log2 + 1

/-- Whether a nonzero magnitude is an exact power of two (the source walks
the `u64` digits: the top digit must be a power of two and the rest 0). -/
def isPow2 (n : Nat) : Bool := n == 2 ^ n.log2

/-- `bitsize(int, signed)` from `vm/src/util.rs`. -/
def bitsize (x : Int) (signed : Bool) : Nat :=
  let bits := bigintBits x.natAbs
  if signed then
    if x = 0 then bits                     -- Sign::NoSign
    else if 0 < x then bits + 1            -- Sign::Plus
    else if isPow2 x.natAbs then bits      -- Sign::Minus, |x| a power of two
    else bits + 1
  else bits

/-- `store_int_to_builder_unchecked`.  The fast `to_u64` path and the
nonnegative byte path both append the big-endian `bits`-bit value of
`x mod 2^bits`; a negative `x` on the byte path goes through
`to_signed_bytes_le` when `signed` (two's complement, again `x mod 2^bits`)
but through `to_bytes_le().1` when unsigned, which drops the sign and
stores the magnitude.  Fails on builder capacity overflow. -/
def store_int_to_builder_unchecked (x : Int) (bits : Nat) (signed : Bool)
    (b : List Bool) : Option (List Bool) :=
  if BUILDER_MAX_BITS < b.length + bits then none
  else if !signed && x < 0 then
    some (b ++ natToBits bits (x.natAbs % 2 ^ bits))
  else
    some (b ++ natToBits bits (x % (2 ^ bits : Int)).toNat)

/-- `store_int_to_builder`: reject values wider than `bits` with
IntOverflow, then store. -/
def store_int_to_builder (x : Int) (bits : Nat) (signed : Bool)
    (b : List Bool) : Option (List Bool) :=
  if bits < bitsize x signed then none
  else store_int_to_builder_unchecked x bits signed b

/-- `load_int_from_slice`: read `bits` bits and interpret them as an
unsigned value or as a two's-complement signed value (the `≤ 64`-bit path
clones the sign bit into the high bits, the wide path uses
`from_signed_bytes_be` over a 33-byte buffer, hence the 264-bit cap). -/
def load_int_from_slice (s : List Bool) (bits : Nat) (signed : Bool) :
    Option Int :=
  if bits = 0 then some 0
  else if 264 < bits then none
  else if s.length < bits then none
  else
    let v := bitsToNat (s.take bits)
    if signed then
      some (if v < 2 ^ (bits - 1) then (v : Int) else (v : Int) - 2 ^ bits)
    else some (v : Int)

theorem natToBits_length (n v : Nat) : (natToBits n v).length = n := by
  induction n generalizing v with
  | zero => rfl
  | succ n ih => simp [natToBits, ih]

theorem bitsToNat_append_bit (l : List Bool) (b : Bool) :
    bitsToNat (l ++ [b]) = 2 * bitsToNat l + (if b then 1 else 0) := by
  unfold bitsToNat
  rw [List.foldl_append]
  rfl

theorem bitsToNat_natToBits (n v : Nat) : bitsToNat (natToBits n v) = v % 2 ^ n := by
  induction n generalizing v with
  | zero => simp [natToBits, bitsToNat, Nat.mod_one]
  | succ n ih =>
    rw [natToBits, bitsToNat_append_bit, ih]
    have h2 : v % 2 ^ (n + 1) = v % 2 + 2 * (v / 2 % 2 ^ n) := by
      rw [pow_succ, Nat.mul_comm (2 ^ n) 2, Nat.mod_mul]
    have h3 : (if (v % 2 == 1 : Bool) then 1 else 0) = v % 2 := by
      rcases Nat.mod_two_eq_zero_or_one v with h | h <;> simp [h]
    omega

theorem bigintBits_le_iff (n b : Nat) : bigintBits n ≤ b ↔ n < 2 ^ b := by
  unfold bigintBits
  split
  · rename_i h0
    subst h0
    exact ⟨fun _ => pow_pos (by norm_num) b, fun _ => Nat.zero_le b⟩
  · rename_i hn
    rw [Nat.succ_le_iff]
    exact Nat.log2_lt hn

theorem bitsize_zero_imp (x : Int) (signed : Bool) (h : bitsize x signed = 0) :
    x = 0 := by
  unfold bitsize at h
  rcases signed with _ | _
  · simp only [Bool.false_eq_true, if_false] at h
    have := (bigintBits_le_iff x.natAbs 0).1 (le_of_eq h)
    omega
  · simp only [if_true] at h
    by_cases h0 : x = 0
    · exact h0
    · rw [if_neg h0] at h
      by_cases hpos : 0 < x
      · rw [if_pos hpos] at h; omega
      · rw [if_neg hpos] at h
        have hne : x.natAbs ≠ 0 := by omega
        have hge : 1 ≤ bigintBits x.natAbs := by
          unfold bigintBits
          rw [if_neg hne]
          omega
        split at h <;> omega

/-- Bounds extracted from a successful signed `bitsize` check: the value
fits in `bits`-bit two's complement. -/
theorem bitsize_signed_bounds (x : Int) (bits : Nat) (hb : 1 ≤ bits)
    (h : bitsize x true ≤ bits) :
    -((2 : Int) ^ (bits - 1)) ≤ x ∧ x < (2 : Int) ^ (bits - 1) := by
  have hpow : (0 : Int) < 2 ^ (bits - 1) := by positivity
  unfold bitsize at h
  simp only [if_true] at h
  by_cases h0 : x = 0
  · subst h0
    constructor <;> omega
  · rw [if_neg h0] at h
    by_cases hpos : 0 < x
    · rw [if_pos hpos] at h
      have hlt : x.natAbs < 2 ^ (bits - 1) :=
        (bigintBits_le_iff x.natAbs (bits - 1)).1 (by omega)
      have hc : (x.natAbs : Int) < (2 : Int) ^ (bits - 1) := by exact_mod_cast hlt
      constructor <;> omega
    · rw [if_neg hpos] at h
      have hneg : x < 0 := by omega
      constructor
      · by_cases hp2 : isPow2 x.natAbs
        · rw [if_pos hp2] at h
          have hx : x.natAbs = 2 ^ x.natAbs.log2 := by simpa [isPow2] using hp2
          have hlog : x.natAbs.log2 ≤ bits - 1 := by
            unfold bigintBits at h
            rw [if_neg (by omega)] at h
            omega
          have hle : x.natAbs ≤ 2 ^ (bits - 1) := by
            rw [hx]
            exact Nat.pow_le_pow_right (by norm_num) hlog
          have hc : (x.natAbs : Int) ≤ (2 : Int) ^ (bits - 1) := by exact_mod_cast hle
          omega
        · rw [if_neg hp2] at h
          have hlt : x.natAbs < 2 ^ (bits - 1) :=
            (bigintBits_le_iff x.natAbs (bits - 1)).1 (by omega)
          have hc : (x.natAbs : Int) < (2 : Int) ^ (bits - 1) := by exact_mod_cast hlt
          omega
      · omega

/-- C10 counterexample to the store/load round trip as originally
claimed: a negative value stored as unsigned passes the `bitsize` check
but is serialized through `to_bytes_le`, which discards the sign, so the
value read back is the magnitude, not the original integer. -/
theorem store_unsigned_negative_counterexample :
    bitsize (-2) false ≤ 8 ∧
    ((store_int_to_builder (-2) 8 false []).bind
        (fun b => load_int_from_slice b 8 false)) = some 2 ∧
    (2 : Int) ≠ -2 := by
  have hbs : bitsize (-2) false = 2 := by
    norm_num [bitsize, bigintBits, Nat.log2]
  refine ⟨by omega, ?_, by decide⟩
  have h1 : store_int_to_builder (-2) 8 false [] =
      some (natToBits 8 ((-2 : Int).natAbs % 2 ^ 8)) := by
    unfold store_int_to_builder store_int_to_builder_unchecked BUILDER_MAX_BITS
    rw [if_neg (by omega), if_neg (by norm_num)]
    norm_num
  rw [h1]
  show load_int_from_slice (natToBits 8 ((-2 : Int).natAbs % 2 ^ 8)) 8 false = some 2
  unfold load_int_from_slice
  rw [if_neg (by norm_num), if_neg (by norm_num),
    if_neg (by rw [natToBits_length]; omega)]
  simp only [Bool.false_eq_true, if_false, Option.some.injEq]
  rw [List.take_of_length_le (le_of_eq (natToBits_length 8 _)), bitsToNat_natToBits]
  norm_num

/-- C10 (amended with the `in_bitsize_range` precondition the code's
callers enforce): for a signed store, or an unsigned store of a
nonnegative value, with `bitsize(x, signed) ≤ bits ≤ 257`, storing into an
empty builder and loading `bits` bits back with the same signedness
returns exactly `x`; and whenever `bits < bitsize(x, signed)` the store
fails with IntOverflow. -/
theorem store_load_roundtrip :
    (∀ (x : Int) (bits : Nat) (signed : Bool),
      bits ≤ 257 → (signed = true ∨ 0 ≤ x) → bitsize x signed ≤ bits →
      ∃ b, store_int_to_builder x bits signed [] = some b ∧
        load_int_from_slice b bits signed = some x) ∧
    (∀ (x : Int) (bits : Nat) (signed : Bool) (b₀ : List Bool),
      bits < bitsize x signed → store_int_to_builder x bits signed b₀ = none) := by
  constructor
  · intro x bits signed hbits hsign hsize
    have hpow : (0 : Int) < 2 ^ bits := by positivity
    have hstore : store_int_to_builder x bits signed [] =
        some (natToBits bits (x % (2 ^ bits : Int)).toNat) := by
      unfold store_int_to_builder store_int_to_builder_unchecked
      rw [if_neg (by omega)]
      rw [if_neg (by unfold BUILDER_MAX_BITS; simp; omega)]
      have hcond : (!signed && decide (x < 0)) = false := by
        rcases hsign with h | h
        · rw [h]; rfl
        · simp [not_lt.2 h]
      rw [hcond]
      simp
    refine ⟨_, hstore, ?_⟩
    by_cases hb0 : bits = 0
    · subst hb0
      have hx0 : x = 0 := bitsize_zero_imp x signed (by omega)
      subst hx0
      rfl
    · have hb1 : 1 ≤ bits := by omega
      have hm_nonneg : (0 : Int) ≤ x % (2 ^ bits : Int) := Int.emod_nonneg x (by omega)
      have hm_lt : x % (2 ^ bits : Int) < 2 ^ bits := Int.emod_lt_of_pos x hpow
      have hmnat_lt : (x % (2 ^ bits : Int)).toNat < 2 ^ bits := by
        have hcastpow : (((2 ^ bits : Nat) : Nat) : Int) = (2 : Int) ^ bits := by
          push_cast; ring
        omega
      unfold load_int_from_slice
      rw [if_neg hb0, if_neg (by omega),
        if_neg (by rw [natToBits_length]; omega),
        List.take_of_length_le (le_of_eq (natToBits_length bits _)),
        bitsToNat_natToBits, Nat.mod_eq_of_lt hmnat_lt]
      have hcast : (((x % (2 ^ bits : Int)).toNat : Nat) : Int) = x % (2 ^ bits : Int) :=
        Int.toNat_of_nonneg hm_nonneg
      rcases signed with _ | _
      · -- unsigned: `0 ≤ x < 2^bits`, so the stored value is `x` itself
        have hx_nonneg : 0 ≤ x := by
          rcases hsign with h | h
          · cases h
          · exact h
        have hlt : x.natAbs < 2 ^ bits := (bigintBits_le_iff x.natAbs bits).1 hsize
        have hxlt : x < (2 : Int) ^ bits := by
          have hc : (x.natAbs : Int) < (2 : Int) ^ bits := by exact_mod_cast hlt
          omega
        have hemod : x % (2 ^ bits : Int) = x := Int.emod_eq_of_lt hx_nonneg hxlt
        simp only [Bool.false_eq_true, if_false, Option.some.injEq]
        rw [hcast, hemod]
      · -- signed: two's complement reconstruction
        obtain ⟨hlo, hhi⟩ := bitsize_signed_bounds x bits hb1 hsize
        have hsplit : (2 : Int) ^ bits = 2 * 2 ^ (bits - 1) := by
          rw [← pow_succ']
          congr 1
          omega
        have hcastpow1 : (((2 ^ (bits - 1) : Nat) : Nat) : Int) = (2 : Int) ^ (bits - 1) := by
          push_cast; ring
        simp only [if_true, Option.some.injEq]
        by_cases hx_nonneg : 0 ≤ x
        · have hemod : x % (2 ^ bits : Int) = x :=
            Int.emod_eq_of_lt hx_nonneg (by omega)
          rw [if_pos (by omega : (x % (2 ^ bits : Int)).toNat < 2 ^ (bits - 1))]
          rw [hcast, hemod]
        · have hxneg : x < 0 := by omega
          have hemod : x % (2 ^ bits : Int) = x + 2 ^ bits := by
            have h1 : (x + 2 ^ bits * 1) % (2 ^ bits : Int) = x % (2 ^ bits : Int) :=
              Int.add_mul_emod_self_left x (2 ^ bits) 1
            have h2 : (x + 2 ^ bits) % (2 ^ bits : Int) = x + 2 ^ bits :=
              Int.emod_eq_of_lt (by omega) (by omega)
            calc x % (2 ^ bits : Int) = (x + 2 ^ bits * 1) % (2 ^ bits : Int) := h1.symm
              _ = (x + 2 ^ bits) % (2 ^ bits : Int) := by ring_nf
              _ = x + 2 ^ bits := h2
          rw [if_neg (by omega : ¬ (x % (2 ^ bits : Int)).toNat < 2 ^ (bits - 1))]
          rw [hcast, hemod]
          ring
  · intro x bits signed b₀ h
    unfold store_int_to_builder
    rw [if_pos h]

theorem store_load_roundtrip_witness :
    (∃ b, store_int_to_builder (-5) 9 true [] = some b ∧
      load_int_from_slice b 9 true = some (-5)) ∧
    store_int_to_builder (-5) 3 true [] = none :=
  ⟨store_load_roundtrip.1 (-5) 9 true (by norm_num)
      (Or.inl rfl) (by norm_num [bitsize, bigintBits, isPow2, Nat.log2]),
   store_load_roundtrip.2 (-5) 3 true []
      (by norm_num [bitsize, bigintBits, isPow2, Nat.log2])⟩

/-! ### Currencies (`everscale_types` models, used by the action phase)

`Tokens` is a bounded 120-bit amount; `ExtraCurrencyCollection` (a hash
dictionary) is modelled as an association list id ↦ amount with 248-bit
entries.  These types and their checked arithmetic live in the external
cell/model library; only their documented contracts are relied on. -/

def TOKENS_MAX : Nat := 2 ^ 120 - 1

def EXTRA_MAX : Nat := 2 ^ 248 - 1

/-- `Tokens::try_add_assign`: fails when the sum leaves the valid range. -/
def tokensTryAdd (a b : Nat) : Option Nat :=
  if a + b ≤ TOKENS_MAX then some (a + b) else none

/-- `Tokens::checked_sub`: fails on underflow. -/
def tokensCheckedSub (a b : Nat) : Option Nat :=
  if b ≤ a then some (a - b) else none

def ExtraCC : Type := List (Nat × Nat)

def extraGet (e : ExtraCC) (k : Nat) : Nat :=
  match List.find? (fun kv => kv.1 == k) e with
  | some kv => kv.2
  | none => 0

/-- `ExtraCurrencyCollection::checked_sub`: every amount in `b` must be
covered by `a`. -/
def extraCheckedSub (a b : ExtraCC) : Option ExtraCC :=
  if List.all b (fun kv => kv.2 ≤ extraGet a kv.1) then
    some (List.map (fun kv => (kv.1, kv.2 - extraGet b kv.1)) a)
  else none

/-- `ExtraCurrencyCollection::try_add_assign` with the per-entry bound. -/
def extraTryAdd (a b : ExtraCC) : Option ExtraCC :=
  let merged : ExtraCC :=
    List.map (fun kv => (kv.1, kv.2 + extraGet b kv.1)) a ++
      List.filter (fun kv => (List.find? (fun kv2 => kv2.1 == kv.1) a).isNone) b
  if List.all merged (fun kv => kv.2 ≤ EXTRA_MAX) then some merged else none

/-- `checked_clamp`: entrywise minimum against the bound collection. -/
def extraClamp (a bound : ExtraCC) : ExtraCC :=
  List.map (fun kv => (kv.1, min kv.2 (extraGet bound kv.1))) a

/-- `ExtraCurrencyCollection::normalize`: strip zero entries. -/
def extraNormalize (e : ExtraCC) : ExtraCC :=
  List.filter (fun kv => kv.2 != 0) e

structure CurrencyCollection where
  tokens : Nat
  other : ExtraCC

def ccCheckedSub (a b : CurrencyCollection) : Option CurrencyCollection :=
  match tokensCheckedSub a.tokens b.tokens, extraCheckedSub a.other b.other with
  | some t, some o => some ⟨t, o⟩
  | _, _ => none

def ccTryAdd (a b : CurrencyCollection) : Option CurrencyCollection :=
  match tokensTryAdd a.tokens b.tokens, extraTryAdd a.other b.other with
  | some t, some o => some ⟨t, o⟩
  | _, _ => none

def ccClamp (a bound : CurrencyCollection) : CurrencyCollection :=
  ⟨min a.tokens bound.tokens, extraClamp a.other bound.other⟩

/-! ### Action phase (`executor/src/phase/action.rs`) -/

/-- The `ActionPhase` record fields the verified claims observe
(`status_change`, `action_list_hash` and `total_message_size` are carried
unchanged by the paths under verification and are omitted). -/
structure ActionPhase where
  success : Bool
  valid : Bool
  no_funds : Bool
  total_fwd_fees : Option Nat
  total_action_fees : Option Nat
  result_code : Int
  result_arg : Option Nat
  total_actions : Nat
  special_actions : Nat
  skipped_actions : Nat
  messages_created : Nat

structure ActionPhaseFull where
  action_phase : ActionPhase
  action_fine : Nat
  state_exceeds_limits : Bool
  bounce : Bool

/-- The initial `ActionPhaseFull` built at the top of `action_phase`. -/
def initActionPhaseFull : ActionPhaseFull :=
  { action_phase :=
      { success := false, valid := false, no_funds := false,
        total_fwd_fees := none, total_action_fees := none,
        result_code := -1, result_arg := none, total_actions := 0,
        special_actions := 0, skipped_actions := 0, messages_created := 0 }
    action_fine := 0, state_exceeds_limits := false, bounce := false }

/-- A parsed `OutAction` (`everscale_types::models::OutAction`). -/
inductive OutActionV where
  | sendMsg (mode : Nat) (out_msg : Cell)
  | setCode (new_code : Cell)
  | reserveCurrency (mode : Nat) (value : CurrencyCollection)
  | changeLibrary (mode : Nat) (lib_hash : Nat)

/-- The executor-state fields `action_phase` commits on success (account
state kept opaque in `σ`). -/
structure ExecState (σ : Type) where
  balance : CurrencyCollection
  total_fees : Nat
  end_lt : Nat
  out_msgs : List Cell
  state : σ

/-- `OutAction::TAG_SEND_MSG`. -/
def TAG_SEND_MSG : Nat := 0x0ec3c86d

/-- `SendMsgFlags::IGNORE_ERROR`. -/
def SENDMSG_IGNORE_ERROR : Nat := 2

/-- `SendMsgFlags::BOUNCE_ON_ERROR`. -/
def SENDMSG_BOUNCE_ON_ERROR : Nat := 16

/-- A cell viewed as an empty slice: no data bits and no references. -/
def cellSliceIsEmpty (c : Cell) : Bool := c.data.isEmpty && c.refs.isEmpty

/-- The unpacking loop of `action_phase`: walk the chain through the first
reference of each cell, collecting the cells in traversal order.  Errors
carry `(result_code, result_arg)`: 32 (ActionListInvalid) for an exotic
cell or a missing reference, 33 (TooManyActions) past `MAX_ACTIONS = 255`. -/
def unpack_actions_loop (actions : Cell) (action_idx : Nat) :
    Except (Int × Nat) (List Cell) :=
  if actions.exotic then .error (32, action_idx)
  else if cellSliceIsEmpty actions then .ok []
  else
    match actions.refs.head? with
    | none => .error (32, action_idx)
    | some child =>
      if h : 255 < action_idx + 1 then .error (33, action_idx + 1)
      else
        match unpack_actions_loop child (action_idx + 1) with
        | .ok rest => .ok (actions :: rest)
        | .error e => .error e
termination_by 255 - action_idx
decreasing_by omega

def unpack_actions (actions : Cell) : Except (Int × Nat) (List Cell) :=
  unpack_actions_loop actions 0

/-- The body slice of an action cell: the first reference is skipped
(`cs.load_reference().ok()`), the data is untouched. -/
def cellBody (c : Cell) : List Bool × List Cell := (c.data, c.refs.tail)

/-- `OutAction::load_from` followed by the `cs_parsed.is_empty()` check:
accept only a parse that consumed the entire slice. -/
def parseExact (parse : List Bool × List Cell → Option (OutActionV × (List Bool × List Cell)))
    (body : List Bool × List Cell) : Option OutActionV :=
  match parse body with
  | some (act, rem) =>
    if rem.1.isEmpty && rem.2.isEmpty then some act else none
  | none => none

/-- The failure record shared by the validation pass: result code 34
(ActionInvalid), `result_arg = idx`, `valid = false`. -/
def failActionInvalid (r : ActionPhaseFull) (idx : Nat) : ActionPhaseFull :=
  { r with
    action_phase :=
      { r.action_phase with
        result_code := 34
        result_arg := some idx
        valid := false } }

/-- Record one skipped action in the phase counters. -/
def recordSkipped (r : ActionPhaseFull) : ActionPhaseFull :=
  { r with
    action_phase :=
      { r.action_phase with
        skipped_actions := r.action_phase.skipped_actions + 1 } }

/-- The validation pass of `action_phase`, over the collected cells in
insertion order (the reverse of traversal order), enumerated from 0.
An unparsable cell is handled by the SendMsg special case when its body
has at least 40 bits and carries the SendMsg tag: `IGNORE_ERROR` records a
skip and continues, `BOUNCE_ON_ERROR` requests a bounce before failing;
every remaining failure stops with code 34 (ActionInvalid). -/
def validateActions
    (parse : List Bool × List Cell → Option (OutActionV × (List Bool × List Cell))) :
    List Cell → Nat → ActionPhaseFull →
      Except ActionPhaseFull (List (Option OutActionV) × ActionPhaseFull)
  | [], _, r => .ok ([], r)
  | c :: rest, idx, r =>
    let body := cellBody c
    match parseExact parse body with
    | some act =>
      (validateActions parse rest (idx + 1) r).map (fun p => (some act :: p.1, p.2))
    | none =>
      if 40 ≤ body.1.length && bitsToNat (body.1.take 32) == TAG_SEND_MSG then
        let mode := bitsToNat ((body.1.drop 32).take 8)
        if mode &&& SENDMSG_IGNORE_ERROR ≠ 0 then
          (validateActions parse rest (idx + 1) (recordSkipped r)).map
            (fun p => (none :: p.1, p.2))
        else
          let r := if mode &&& SENDMSG_BOUNCE_ON_ERROR ≠ 0 then
              { r with bounce := true } else r
          .error (failActionInvalid r idx)
      else
        .error (failActionInvalid r idx)

/-- `ExecutorState::action_phase` up to the execution pass, which
(together with the state-limit check and the final commit) is the opaque
`execRest`: the claims verified here are decided by the unpack and
validation passes, which return before any executor-state mutation. -/
def action_phase {σ : Type}
    (parse : List Bool × List Cell → Option (OutActionV × (List Bool × List Cell)))
    (execRest : ExecState σ → List (Option OutActionV) → ActionPhaseFull →
      ExecState σ × ActionPhaseFull)
    (es : ExecState σ) (actions : Cell) : ExecState σ × ActionPhaseFull :=
  let res := initActionPhaseFull
  match unpack_actions actions with
  | .error (code, arg) =>
    (es,
      { res with
        action_phase :=
          { res.action_phase with
            result_code := code
            result_arg := some arg
            valid := false } })
  | .ok list =>
    let res :=
      { res with
        action_phase := { res.action_phase with total_actions := list.length } }
    match validateActions parse list.reverse 0 res with
    | .error res' => (es, res')
    | .ok (parsed, res') =>
      let res' :=
        { res' with
          action_phase := { res'.action_phase with valid := true } }
      execRest es parsed res'

/-- A chain whose first `n` cells are all ordinary, non-empty and carry a
first reference: the walk performs at least `n` pushes. -/
def validChainSteps : Nat → Cell → Bool
  | 0, _ => true
  | n + 1, c =>
    !c.exotic && !cellSliceIsEmpty c &&
      (match c.refs.head? with
       | some child => validChainSteps n child
       | none => false)

theorem unpack_actions_loop_too_many :
    ∀ (k : Nat) (c : Cell) (idx : Nat), idx + k = 255 →
      validChainSteps (k + 1) c = true →
      unpack_actions_loop c idx = .error (33, 256) := by
  intro k
  induction k with
  | zero =>
    intro c idx hidx hv
    simp only [validChainSteps, Bool.and_eq_true, Bool.not_eq_eq_eq_not,
      Bool.not_true] at hv
    obtain ⟨⟨hex, hem⟩, hch⟩ := hv
    match hh : c.refs.head? with
    | none => rw [hh] at hch; simp at hch
    | some child =>
      rw [unpack_actions_loop]
      simp only [hex, hem, hh, Bool.false_eq_true, if_false]
      rw [dif_pos (by omega : 255 < idx + 1)]
      have h256 : idx = 255 := by omega
      subst h256
      rfl
  | succ k ih =>
    intro c idx hidx hv
    simp only [validChainSteps, Bool.and_eq_true, Bool.not_eq_eq_eq_not,
      Bool.not_true] at hv
    obtain ⟨⟨hex, hem⟩, hch⟩ := hv
    match hh : c.refs.head? with
    | none => rw [hh] at hch; simp at hch
    | some child =>
      rw [hh] at hch
      rw [unpack_actions_loop]
      simp only [hex, hem, hh, Bool.false_eq_true, if_false]
      rw [dif_neg (by omega : ¬ 255 < idx + 1)]
      rw [ih child (idx + 1) (by omega) hch]

/-- C3: An action-list chain with more than 255 actions makes
`action_phase` return with result code 33 (TooManyActions),
`result_arg = 256`, `valid = false` and `total_actions = 0`, with the
executor state (balance, total fees, account state) untouched. -/
theorem action_phase_too_many_actions {σ : Type}
    (parse : List Bool × List Cell → Option (OutActionV × (List Bool × List Cell)))
    (execRest : ExecState σ → List (Option OutActionV) → ActionPhaseFull →
      ExecState σ × ActionPhaseFull)
    (es : ExecState σ) (c : Cell)
    (h : validChainSteps 256 c = true) :
    action_phase parse execRest es c =
      (es,
        { initActionPhaseFull with
          action_phase :=
            { initActionPhaseFull.action_phase with
              result_code := 33
              result_arg := some 256
              valid := false } }) := by
  unfold action_phase unpack_actions
  rw [unpack_actions_loop_too_many 255 c 0 (by omega) h]

def mkChain : Nat → Cell
  | 0 => Cell.ordinary [] []
  | n + 1 => Cell.ordinary [true] [mkChain n]

def sampleExecState : ExecState Unit :=
  { balance := ⟨1000, []⟩, total_fees := 0, end_lt := 0, out_msgs := [], state := () }

set_option maxRecDepth 4000 in
theorem action_phase_too_many_actions_witness :
    action_phase (fun _ => none) (fun es p r => (es, r)) sampleExecState
        (mkChain 256) =
      (sampleExecState,
        { initActionPhaseFull with
          action_phase :=
            { initActionPhaseFull.action_phase with
              result_code := 33
              result_arg := some 256
              valid := false } }) :=
  action_phase_too_many_actions (fun _ => none) (fun es p r => (es, r))
    sampleExecState (mkChain 256) (by decide)

/-- C4: In the validation pass, a cell at insertion index `i` whose body
does not parse exactly as a whole-slice `OutAction` is handled as follows:
with at least 40 data bits and the leading SendMsg tag, the 8-bit mode is
read; `IGNORE_ERROR` records a skip and validation continues with the next
cell; otherwise `BOUNCE_ON_ERROR` sets `bounce = true` before the phase
fails; every remaining failure stops with result code 34 (ActionInvalid),
`result_arg = i` and `valid = false`. -/
theorem validate_actions_send_msg_special
    (parse : List Bool × List Cell → Option (OutActionV × (List Bool × List Cell)))
    (c : Cell) (rest : List Cell) (idx : Nat) (r : ActionPhaseFull)
    (hfail : parseExact parse (cellBody c) = none) :
    (∀ (h40 : 40 ≤ (cellBody c).1.length)
       (htag : bitsToNat ((cellBody c).1.take 32) = TAG_SEND_MSG),
      (bitsToNat (((cellBody c).1.drop 32).take 8) &&& SENDMSG_IGNORE_ERROR ≠ 0 →
        validateActions parse (c :: rest) idx r =
          (validateActions parse rest (idx + 1) (recordSkipped r)).map
            (fun p => (none :: p.1, p.2))) ∧
      (bitsToNat (((cellBody c).1.drop 32).take 8) &&& SENDMSG_IGNORE_ERROR = 0 →
        bitsToNat (((cellBody c).1.drop 32).take 8) &&& SENDMSG_BOUNCE_ON_ERROR ≠ 0 →
        validateActions parse (c :: rest) idx r =
          .error (failActionInvalid { r with bounce := true } idx)) ∧
      (bitsToNat (((cellBody c).1.drop 32).take 8) &&& SENDMSG_IGNORE_ERROR = 0 →
        bitsToNat (((cellBody c).1.drop 32).take 8) &&& SENDMSG_BOUNCE_ON_ERROR = 0 →
        validateActions parse (c :: rest) idx r = .error (failActionInvalid r idx))) ∧
    (¬ (40 ≤ (cellBody c).1.length ∧
        bitsToNat ((cellBody c).1.take 32) = TAG_SEND_MSG) →
      validateActions parse (c :: rest) idx r = .error (failActionInvalid r idx)) := by
  constructor
  · intro h40 htag
    have hcond : (decide (40 ≤ (cellBody c).1.length) &&
        (bitsToNat ((cellBody c).1.take 32) == TAG_SEND_MSG)) = true := by
      simp [h40, htag]
    refine ⟨?_, ?_, ?_⟩
    · intro hig
      rw [validateActions, hfail]
      simp only [hcond, if_true]
      rw [if_pos hig]
    · intro hig hbo
      rw [validateActions, hfail]
      simp only [hcond, if_true]
      rw [if_neg (by omega), if_pos hbo]
    · intro hig hbo
      rw [validateActions, hfail]
      simp only [hcond, if_true]
      rw [if_neg (by omega), if_neg (by omega)]
  · intro hcond
    have hcond' : (decide (40 ≤ (cellBody c).1.length) &&
        (bitsToNat ((cellBody c).1.take 32) == TAG_SEND_MSG)) = false := by
      rw [Bool.and_eq_false_iff]
      by_cases h40 : 40 ≤ (cellBody c).1.length
      · right
        rw [beq_eq_false_iff_ne]
        intro h
        exact hcond ⟨h40, h⟩
      · left
        simpa using h40
    rw [validateActions, hfail]
    simp only [hcond', Bool.false_eq_true, if_false]

def sampleSendMsgCell : Cell :=
  Cell.ordinary (natToBits 32 TAG_SEND_MSG ++ natToBits 8 2) [Cell.ordinary [] []]

theorem validate_actions_send_msg_special_witness :
    validateActions (fun _ => none) [sampleSendMsgCell] 0 initActionPhaseFull =
      (validateActions (fun _ => none) [] 1 (recordSkipped initActionPhaseFull)).map
        (fun p => ((none : Option OutActionV) :: p.1, p.2)) :=
  ((validate_actions_send_msg_special (fun _ => none) sampleSendMsgCell [] 0
      initActionPhaseFull rfl).1 (by decide) (by decide)).1 (by decide)

/-! ### `ReserveCurrency` (`do_reserve_currency`) -/

def RESERVE_ALL_BUT : Nat := 1
def RESERVE_IGNORE_ERROR : Nat := 2
def RESERVE_WITH_ORIGINAL_BALANCE : Nat := 4
def RESERVE_REVERSE : Nat := 8
def RESERVE_BOUNCE_ON_ERROR : Nat := 16

/-- `ReserveCurrencyFlags::all().bits()`. -/
def RESERVE_MASK : Nat := 31

/-- The `ActionContext` / `ActionPhase` fields `do_reserve_currency`
reads and writes. -/
structure ResCtx where
  need_bounce_on_fail : Bool
  original_balance : CurrencyCollection
  remaining_balance : CurrencyCollection
  reserved_balance : CurrencyCollection
  result_code : Int
  special_actions : Nat

/-- `BOUNCE_ON_ERROR` requests a bounce before anything else. -/
def applyBounceFlag (mode : Nat) (ctx : ResCtx) : ResCtx :=
  if mode &&& RESERVE_BOUNCE_ON_ERROR ≠ 0 then
    { ctx with need_bounce_on_fail := true }
  else ctx

/-- The `WITH_ORIGINAL_BALANCE` / `REVERSE` preprocessing of the reserve:
`original − reserve` under `REVERSE`, `reserve + original` otherwise;
`REVERSE` without `WITH_ORIGINAL_BALANCE` is an invalid mode. -/
def reserveWithOriginal (mode : Nat) (original reserve : CurrencyCollection) :
    Option CurrencyCollection :=
  if mode &&& RESERVE_WITH_ORIGINAL_BALANCE ≠ 0 then
    if mode &&& RESERVE_REVERSE ≠ 0 then ccCheckedSub original reserve
    else ccTryAdd reserve original
  else if mode &&& RESERVE_REVERSE ≠ 0 then none
  else some reserve

/-- `ExecutorState::do_reserve_currency`; the returned flag is the action
result (`false` = `Err(ActionFailed)`).  `RESERVE_MASK < mode` is
`mode.bits() & !MASK != 0` for a `u8` mode. -/
def do_reserve_currency (mode : Nat) (reserve : CurrencyCollection)
    (ctx : ResCtx) : ResCtx × Bool :=
  let ctx := applyBounceFlag mode ctx
  if RESERVE_MASK < mode then (ctx, false)
  else
    match reserveWithOriginal mode ctx.original_balance reserve with
    | none => (ctx, false)
    | some reserve =>
      -- `IGNORE_ERROR` clamps the reserve to the remaining balance
      let reserve :=
        if mode &&& RESERVE_IGNORE_ERROR ≠ 0 then
          ccClamp reserve ctx.remaining_balance
        else reserve
      match tokensCheckedSub ctx.remaining_balance.tokens reserve.tokens with
      | none => ({ ctx with result_code := 37 }, false)
      | some tok =>
        match extraCheckedSub ctx.remaining_balance.other reserve.other with
        | none => ({ ctx with result_code := 38 }, false)
        | some oth =>
          let new_balance : CurrencyCollection := ⟨tok, oth⟩
          -- always normalize the reserved extra currencies
          let reserve : CurrencyCollection :=
            ⟨reserve.tokens, extraNormalize reserve.other⟩
          -- `ALL_BUT` swaps what is kept and what is reserved
          let nb := if mode &&& RESERVE_ALL_BUT ≠ 0 then reserve else new_balance
          let rf := if mode &&& RESERVE_ALL_BUT ≠ 0 then new_balance else reserve
          let ctx := { ctx with remaining_balance := nb }
          match ccTryAdd ctx.reserved_balance rf with
          | none => (ctx, false)
          | some rb =>
            ({ ctx with
                reserved_balance := rb
                special_actions := ctx.special_actions + 1 }, true)

/-- C5: `ReserveCurrency` semantics: `REVERSE` without
`WITH_ORIGINAL_BALANCE` fails the action; under `WITH_ORIGINAL_BALANCE`
the reserve first becomes `original − reserve` (`REVERSE`) or
`reserve + original`; then `new_balance = remaining_balance − reserve`,
where a token underflow sets result code 37 and an extra-currency
underflow sets 38; on success — after swapping `new_balance` and the
reserve under `ALL_BUT` — the remaining balance becomes `new_balance`,
the reserved balance grows by the reserve, and `special_actions`
increments by exactly one. -/
theorem do_reserve_currency_spec :
    (∀ (mode : Nat) (reserve : CurrencyCollection) (ctx : ResCtx),
      mode &&& RESERVE_REVERSE ≠ 0 → mode &&& RESERVE_WITH_ORIGINAL_BALANCE = 0 →
      (do_reserve_currency mode reserve ctx).2 = false) ∧
    (∀ (mode : Nat) (reserve : CurrencyCollection) (ctx : ResCtx)
        (r1 r2 : CurrencyCollection),
      mode ≤ RESERVE_MASK →
      reserveWithOriginal mode ctx.original_balance reserve = some r1 →
      r2 = (if mode &&& RESERVE_IGNORE_ERROR ≠ 0 then
          ccClamp r1 ctx.remaining_balance else r1) →
      (tokensCheckedSub ctx.remaining_balance.tokens r2.tokens = none →
        (do_reserve_currency mode reserve ctx).2 = false ∧
          (do_reserve_currency mode reserve ctx).1.result_code = 37) ∧
      (∀ tok, tokensCheckedSub ctx.remaining_balance.tokens r2.tokens = some tok →
        extraCheckedSub ctx.remaining_balance.other r2.other = none →
        (do_reserve_currency mode reserve ctx).2 = false ∧
          (do_reserve_currency mode reserve ctx).1.result_code = 38) ∧
      (∀ tok oth rb,
        tokensCheckedSub ctx.remaining_balance.tokens r2.tokens = some tok →
        extraCheckedSub ctx.remaining_balance.other r2.other = some oth →
        ccTryAdd ctx.reserved_balance
          (if mode &&& RESERVE_ALL_BUT ≠ 0 then (⟨tok, oth⟩ : CurrencyCollection)
           else ⟨r2.tokens, extraNormalize r2.other⟩) = some rb →
        (do_reserve_currency mode reserve ctx).2 = true ∧
          (do_reserve_currency mode reserve ctx).1.remaining_balance =
            (if mode &&& RESERVE_ALL_BUT ≠ 0 then
              (⟨r2.tokens, extraNormalize r2.other⟩ : CurrencyCollection)
            else ⟨tok, oth⟩) ∧
          (do_reserve_currency mode reserve ctx).1.reserved_balance = rb ∧
          (do_reserve_currency mode reserve ctx).1.special_actions =
            ctx.special_actions + 1)) := by
  constructor
  · intro mode reserve ctx hrev horig
    unfold do_reserve_currency
    by_cases hmask : RESERVE_MASK < mode
    · rw [if_pos hmask]
    · rw [if_neg hmask]
      have hr : reserveWithOriginal mode (applyBounceFlag mode ctx).original_balance
          reserve = none := by
        unfold reserveWithOriginal
        rw [if_neg (by omega), if_pos hrev]
      rw [hr]
  · intro mode reserve ctx r1 r2 hmask hr1 hr2
    have hb1 : (applyBounceFlag mode ctx).original_balance = ctx.original_balance := by
      unfold applyBounceFlag; split <;> rfl
    have hb2 : (applyBounceFlag mode ctx).remaining_balance = ctx.remaining_balance := by
      unfold applyBounceFlag; split <;> rfl
    have hb3 : (applyBounceFlag mode ctx).reserved_balance = ctx.reserved_balance := by
      unfold applyBounceFlag; split <;> rfl
    have hb4 : (applyBounceFlag mode ctx).special_actions = ctx.special_actions := by
      unfold applyBounceFlag; split <;> rfl
    have hb5 : (applyBounceFlag mode ctx).result_code = ctx.result_code := by
      unfold applyBounceFlag; split <;> rfl
    refine ⟨?_, ?_, ?_⟩
    · intro htok
      have hres : do_reserve_currency mode reserve ctx =
          ({ need_bounce_on_fail := (applyBounceFlag mode ctx).need_bounce_on_fail,
             original_balance := ctx.original_balance,
             remaining_balance := ctx.remaining_balance,
             reserved_balance := ctx.reserved_balance,
             result_code := 37,
             special_actions := ctx.special_actions }, false) := by
        unfold do_reserve_currency
        rw [if_neg (by omega), hb1, hr1]
        dsimp only
        rw [hb2, hb3, hb4, ← hr2, htok]
      rw [hres]
      exact ⟨rfl, rfl⟩
    · intro tok htok hext
      have hres : do_reserve_currency mode reserve ctx =
          ({ need_bounce_on_fail := (applyBounceFlag mode ctx).need_bounce_on_fail,
             original_balance := ctx.original_balance,
             remaining_balance := ctx.remaining_balance,
             reserved_balance := ctx.reserved_balance,
             result_code := 38,
             special_actions := ctx.special_actions }, false) := by
        unfold do_reserve_currency
        rw [if_neg (by omega), hb1, hr1]
        dsimp only
        rw [hb2, hb3, hb4, ← hr2, htok]
        dsimp only
        rw [hext]
      rw [hres]
      exact ⟨rfl, rfl⟩
    · intro tok oth rb htok hext hadd
      have hres : do_reserve_currency mode reserve ctx =
          ({ need_bounce_on_fail := (applyBounceFlag mode ctx).need_bounce_on_fail,
             original_balance := ctx.original_balance,
             remaining_balance :=
               if mode &&& RESERVE_ALL_BUT ≠ 0 then
                 (⟨r2.tokens, extraNormalize r2.other⟩ : CurrencyCollection)
               else ⟨tok, oth⟩,
             reserved_balance := rb,
             result_code := ctx.result_code,
             special_actions := ctx.special_actions + 1 }, true) := by
        unfold do_reserve_currency
        rw [if_neg (by omega), hb1, hr1]
        dsimp only
        rw [hb2, hb3, hb4, hb5, ← hr2, htok]
        dsimp only
        rw [hext]
        dsimp only
        rw [hadd]
      rw [hres]
      exact ⟨rfl, rfl, rfl, rfl⟩

def sampleResCtx : ResCtx :=
  { need_bounce_on_fail := false, original_balance := ⟨50, []⟩,
    remaining_balance := ⟨100, []⟩, reserved_balance := ⟨0, []⟩,
    result_code := -1, special_actions := 0 }

theorem do_reserve_currency_spec_witness :
    (do_reserve_currency 4 ⟨10, []⟩ sampleResCtx).2 = true ∧
    (do_reserve_currency 4 ⟨10, []⟩ sampleResCtx).1.remaining_balance =
      (if (4 : Nat) &&& RESERVE_ALL_BUT ≠ 0 then
        (⟨(⟨60, []⟩ : CurrencyCollection).tokens,
          extraNormalize (⟨60, []⟩ : CurrencyCollection).other⟩ : CurrencyCollection)
      else ⟨40, []⟩) ∧
    (do_reserve_currency 4 ⟨10, []⟩ sampleResCtx).1.reserved_balance =
      (⟨60, []⟩ : CurrencyCollection) ∧
    (do_reserve_currency 4 ⟨10, []⟩ sampleResCtx).1.special_actions =
      sampleResCtx.special_actions + 1 :=
  (do_reserve_currency_spec.2 4 ⟨10, []⟩ sampleResCtx ⟨60, []⟩ ⟨60, []⟩
      (by decide) rfl rfl).2.2 40 [] ⟨60, []⟩ rfl rfl rfl

/-! ### Action fines (`collect_fine`, `apply_fine_on_error`) -/

def U64_MAX : Nat := 2 ^ 64 - 1

/-- The `collect_fine` closure of `do_send_message`: charge
`fine_per_cell` per visited cell capped at `max_cell_count`
(`u64`-saturating multiply), clamp the fine to the remaining balance,
accumulate it into `action_fine` and subtract it from the remaining
balance. -/
def collect_fine (fine_per_cell max_cell_count cells : Nat)
    (action_fine remaining : Nat) : Option (Nat × Nat) :=
  let fine := min (fine_per_cell * min max_cell_count cells) U64_MAX
  let fine := min fine remaining
  match tokensTryAdd action_fine fine with
  | none => none
  | some f =>
    match tokensCheckedSub remaining fine with
    | none => none
    | some rem => some (f, rem)

/-- The executor fields written by `apply_fine_on_error`. -/
structure FineOut where
  action_fine : Nat
  total_fwd_fees : Option Nat
  total_action_fees : Option Nat
  balance_tokens : Nat
  total_fees : Nat

/-- `ActionContext::apply_fine_on_error`: optionally fold the collected
action fees into the fine, reset the forwarding fees, publish the fine as
the action fees, charge it to the account balance and add it to the total
collected fees.  `none` is the host error (`?`) path. -/
def apply_fine_on_error (action_fine : Nat) (total_action_fees : Option Nat)
    (charge_action_fees : Bool) (balance_tokens total_fees : Nat) :
    Option FineOut :=
  match (if charge_action_fees then
      tokensTryAdd action_fine (total_action_fees.getD 0)
    else some action_fine) with
  | none => none
  | some f =>
    match tokensCheckedSub balance_tokens f with
    | none => none
    | some bal =>
      match tokensTryAdd total_fees f with
      | none => none
      | some tf =>
        some { action_fine := f, total_fwd_fees := none,
               total_action_fees := if f = 0 then none else some f,
               balance_tokens := bal, total_fees := tf }

theorem collect_fine_step (p m c f r f' r' : Nat)
    (h : collect_fine p m c f r = some (f', r')) :
    f ≤ f' ∧ f' + r' = f + r := by
  unfold collect_fine tokensTryAdd tokensCheckedSub at h
  dsimp only at h
  split at h
  · exact Option.noConfusion h
  · rename_i tok htok
    split at h
    · exact Option.noConfusion h
    · rename_i rem hrem
      have hinj := Option.some.inj h
      have hf' : tok = f' := congrArg Prod.fst hinj
      have hr' : rem = r' := congrArg Prod.snd hinj
      split at htok
      · have h1 := Option.some.inj htok
        split at hrem
        · rename_i hle
          have h2 := Option.some.inj hrem
          omega
        · exact Option.noConfusion hrem
      · exact Option.noConfusion htok

/-- The fine-relevant transitions of a single execution pass on the pair
`(action_fine, remaining_balance.tokens)`: a `collect_fine` call, or any
other action step — which never touches the fine and only ever decreases
the remaining tokens (message values, forwarding fees and reserves are
subtractions from it). -/
inductive FineStep : Nat × Nat → Nat × Nat → Prop
  | collect (fine_per_cell max_cell_count cells : Nat) (s s' : Nat × Nat)
      (h : collect_fine fine_per_cell max_cell_count cells s.1 s.2 = some s') :
      FineStep s s'
  | spend (f r r' : Nat) (h : r' ≤ r) : FineStep (f, r) (f, r')

theorem fineStep_monotone (s s' : Nat × Nat) (h : FineStep s s') : s.1 ≤ s'.1 := by
  cases h with
  | collect p m c s s' hc =>
    obtain ⟨f', r'⟩ := s'
    exact (collect_fine_step p m c s.1 s.2 f' r' hc).1
  | spend f r r' hr => exact le_refl f

theorem fineStep_sum (s s' : Nat × Nat) (h : FineStep s s') :
    s'.1 + s'.2 ≤ s.1 + s.2 := by
  cases h with
  | collect p m c s s' hc =>
    obtain ⟨f', r'⟩ := s'
    have := (collect_fine_step p m c s.1 s.2 f' r' hc).2
    omega
  | spend f r r' hr => simpa using Nat.add_le_add_left hr f

/-- C8: Along any action-phase execution pass, `action_fine` is
non-decreasing at each fine-relevant step; a full trace starting from a
zero fine and the initial balance ends with a fine bounded by that initial
balance; and a successful `apply_fine_on_error` (the failure epilogue)
again only grows the fine and leaves it at most the pre-phase account
balance it is charged to. -/
theorem action_fine_monotone_bounded :
    (∀ (s s' : Nat × Nat), FineStep s s' → s.1 ≤ s'.1) ∧
    (∀ (initial f r : Nat),
      Relation.ReflTransGen FineStep (0, initial) (f, r) → f ≤ initial) ∧
    (∀ (fine : Nat) (taf : Option Nat) (charge : Bool)
        (balance_tokens total_fees : Nat) (o : FineOut),
      apply_fine_on_error fine taf charge balance_tokens total_fees = some o →
      fine ≤ o.action_fine ∧ o.action_fine ≤ balance_tokens) := by
  refine ⟨fineStep_monotone, ?_, ?_⟩
  · intro initial f r h
    have hsum : ∀ (s s' : Nat × Nat), Relation.ReflTransGen FineStep s s' →
        s'.1 + s'.2 ≤ s.1 + s.2 := by
      intro s s' hrt
      induction hrt with
      | refl => exact le_refl _
      | tail hrt step ih => exact le_trans (fineStep_sum _ _ step) ih
    have h2 := hsum _ _ h
    simp only at h2
    omega
  · intro fine taf charge balance_tokens total_fees o h
    unfold apply_fine_on_error at h
    split at h
    · exact Option.noConfusion h
    · rename_i f hf
      have hfge : fine ≤ f := by
        split at hf
        · unfold tokensTryAdd at hf
          split at hf
          · have := Option.some.inj hf
            omega
          · exact Option.noConfusion hf
        · have := Option.some.inj hf
          omega
      split at h
      · exact Option.noConfusion h
      · rename_i bal hbal
        split at h
        · exact Option.noConfusion h
        · rename_i tf htf
          have ho := (Option.some.inj h).symm
          subst ho
          unfold tokensCheckedSub at hbal
          split at hbal
          · rename_i hle
            exact ⟨hfge, hle⟩
          · exact Option.noConfusion hbal

theorem action_fine_monotone_bounded_witness : (5 : Nat) ≤ 100 :=
  action_fine_monotone_bounded.2.1 100 5 95
    (Relation.ReflTransGen.single (FineStep.collect 5 1 1 (0, 100) (5, 95) rfl))

/-! ### Action installation into `c5` (`src/instr/messageops.rs`) -/

/-- `add_action`: read the action-list head from data register 5
(`get_d(ACTIONS_REG_IDX)`), build through `build_from_ext` a new head
cell — the tuple store puts the previous `c5` cell in as the first
reference, followed by the serialized `OutAction` (its data bits and
references come from the external `Store` impl) — and install it back
with `set_d`.  `none` covers the builder capacity and gas failures of
`build_from_ext` and the missing-register bailout. -/
def add_action {κ : Type} (cr : CRegs κ) (actionBits : List Bool)
    (actionRefs : List Cell) : Option (CRegs κ) :=
  match cr.d1 with
  | none => none
  | some c5 =>
    if actionBits.length ≤ 1023 ∧ actionRefs.length + 1 ≤ 4 then
      some { cr with d1 := some (Cell.ordinary actionBits (c5 :: actionRefs)) }
    else none

/-- C9: A successful action installation leaves in `c5` a newly built
ordinary cell whose first reference is the previous value of `c5` and
whose data bits are the serialized action; no other control register is
modified. -/
theorem add_action_spec {κ : Type} (cr cr' : CRegs κ) (bits : List Bool)
    (refs : List Cell) (h : add_action cr bits refs = some cr') :
    (∃ prev newHead, cr.d1 = some prev ∧ cr'.d1 = some newHead ∧
      newHead.refs.head? = some prev ∧ newHead.data = bits ∧
      newHead.exotic = false) ∧
    cr'.c0 = cr.c0 ∧ cr'.c1 = cr.c1 ∧ cr'.c2 = cr.c2 ∧ cr'.c3 = cr.c3 ∧
    cr'.d0 = cr.d0 ∧ cr'.c7 = cr.c7 := by
  unfold add_action at h
  rcases hd : cr.d1 with _ | c5
  · rw [hd] at h
    exact Option.noConfusion h
  · rw [hd] at h
    dsimp only at h
    split at h
    · have hcr : cr' = { cr with d1 := some (Cell.ordinary bits (c5 :: refs)) } :=
        (Option.some.inj h).symm
      subst hcr
      exact ⟨⟨c5, Cell.ordinary bits (c5 :: refs), rfl, rfl, rfl, rfl, rfl⟩,
        rfl, rfl, rfl, rfl, rfl, rfl⟩
    · exact Option.noConfusion h

theorem add_action_spec_witness :
    (∃ prev newHead, sampleRegs.d1 = some prev ∧
      ({ sampleRegs with
          d1 := some (Cell.ordinary [true] [sampleCell]) } : CRegs Unit).d1 =
        some newHead ∧
      newHead.refs.head? = some prev ∧ newHead.data = [true] ∧
      newHead.exotic = false) ∧
    ({ sampleRegs with
        d1 := some (Cell.ordinary [true] [sampleCell]) } : CRegs Unit).c0 =
      sampleRegs.c0 ∧
    ({ sampleRegs with
        d1 := some (Cell.ordinary [true] [sampleCell]) } : CRegs Unit).c1 =
      sampleRegs.c1 ∧
    ({ sampleRegs with
        d1 := some (Cell.ordinary [true] [sampleCell]) } : CRegs Unit).c2 =
      sampleRegs.c2 ∧
    ({ sampleRegs with
        d1 := some (Cell.ordinary [true] [sampleCell]) } : CRegs Unit).c3 =
      sampleRegs.c3 ∧
    ({ sampleRegs with
        d1 := some (Cell.ordinary [true] [sampleCell]) } : CRegs Unit).d0 =
      sampleRegs.d0 ∧
    ({ sampleRegs with
        d1 := some (Cell.ordinary [true] [sampleCell]) } : CRegs Unit).c7 =
      sampleRegs.c7 :=
  add_action_spec sampleRegs
    { sampleRegs with d1 := some (Cell.ordinary [true] [sampleCell]) }
    [true] [] rfl

end TychoVm
